import Mathlib

/-!
Shallow embedding of the speech-stress analysis backend (`src/main.py`).

Python floats are modelled as rationals (`ℚ`), Python ints as `ℤ`/`ℕ`.
`round(x, 1)` in Python rounds half to even; `round1` below reproduces that
on rationals.  Fallible code paths (Python exceptions such as
`ZeroDivisionError`) are modelled with `Except String`.
-/

set_option autoImplicit false

namespace SpeechBackend

/-- Round a rational to the nearest integer, ties to even
(the semantics of Python's builtin `round`). -/
def roundHalfEven (q : ℚ) : ℤ :=
  if q - ⌊q⌋ < 1/2 then ⌊q⌋
  else if (1:ℚ)/2 < q - ⌊q⌋ then ⌊q⌋ + 1
  else if ⌊q⌋ % 2 = 0 then ⌊q⌋ else ⌊q⌋ + 1

/-- Python's `round(x, 1)`: round to one decimal digit, ties to even. -/
def round1 (q : ℚ) : ℚ := (roundHalfEven (q * 10) : ℚ) / 10

/-- Python's `l[-n:]`: the last `min n l.length` elements of a list. -/
def lastN {α : Type} (n : ℕ) (l : List α) : List α := l.drop (l.length - n)

/-- One entry of the emotion classifier's output:
`{label: ..., score: ...}` (scores lie in `[0, 1]` per the classifier). -/
structure EmotionScore where
  label : String
  score : ℚ
  deriving DecidableEq, Repr

/-- Output record of `analyze_speech_patterns` (`src/main.py` lines 54-59). -/
structure AcousticFeatures where
  num_pauses : ℤ
  pitch_variation : ℚ
  energy_level : ℚ
  duration_seconds : ℚ
  deriving DecidableEq, Repr

/-- `src/main.py` line 41: `num_pauses = len(intervals) - 1`, where
`intervals` is the array of detected non-silent intervals.  Note: no
flooring at 0 is performed. -/
def numPauses (numIntervals : ℕ) : ℤ := (numIntervals : ℤ) - 1

/-- Modelled from the spec (§4.1, not what the code does): `num_pauses` =
interval count − 1, "floored at 0 if fewer than one interval is found". -/
def numPausesSpec (numIntervals : ℕ) : ℤ := max ((numIntervals : ℤ) - 1) 0

/-- `src/main.py` lines 91-94: accumulate `score * 100` over emotions whose
label is one of `angry`, `sad`, `fear`. -/
def emotionStress : List EmotionScore → ℚ
  | [] => 0
  | e :: rest =>
      (if e.label = "angry" ∨ e.label = "sad" ∨ e.label = "fear"
       then e.score * 100 else 0) + emotionStress rest

/-- `src/main.py` line 97: `pause_factor = min(num_pauses * 5, 40)`. -/
def pauseFactor (np : ℤ) : ℤ := min (np * 5) 40

/-- `src/main.py` line 100: `monotone_factor = 30 if pitch_variation < 50 else 0`. -/
def monotoneFactor (pv : ℚ) : ℚ := if pv < 50 then 30 else 0

/-- `src/main.py` line 103:
`stress_score = min(emotion_stress + pause_factor + monotone_factor, 100)`. -/
def stressScore (emotions : List EmotionScore) (feat : AcousticFeatures) : ℚ :=
  min (emotionStress emotions + (pauseFactor feat.num_pauses : ℚ)
        + monotoneFactor feat.pitch_variation) 100

/-- `src/main.py` lines 106-114: the warnings list, built by four sequential
conditional appends on `num_pauses`, `pitch_variation`, the transcript's
word count, and the (unrounded) stress score. -/
def warningsOf (np : ℤ) (pv : ℚ) (wc : ℕ) (ss : ℚ) : List String :=
  let w : List String := []
  let w := if np > 15 then w ++ ["⚠️ Frequent pauses detected"] else w
  let w := if pv < 50 then w ++ ["⚠️ Monotone speech pattern"] else w
  let w := if wc < 30 then w ++ ["⚠️ Reduced verbal output"] else w
  let w := if ss > 70 then w ++ ["⚠️ High stress levels"] else w
  w

/-- Python's `str.split()` with no separator: split on runs of whitespace,
dropping empty pieces.  `cur` holds the (reversed) word being read. -/
def pySplitGo : List Char → List Char → List (List Char)
  | [], cur => if cur = [] then [] else [cur.reverse]
  | c :: rest, cur =>
      if c.isWhitespace then
        if cur = [] then pySplitGo rest [] else cur.reverse :: pySplitGo rest []
      else pySplitGo rest (c :: cur)

/-- `src/main.py` lines 111, 120: `len(transcript_text.split())`. -/
def wordCount (s : String) : ℕ := (pySplitGo s.toList []).length

/-- Modelled from the spec (§4.3): "count of whitespace-delimited tokens",
written as a direct scan counting token starts (a non-whitespace character
not preceded by another non-whitespace character). -/
def countTokensGo : Bool → List Char → ℕ
  | _, [] => 0
  | inWord, c :: rest =>
      if c.isWhitespace then countTokensGo false rest
      else (if inWord then 0 else 1) + countTokensGo true rest

/-- Modelled from the spec (§4.3): the number of whitespace-delimited tokens. -/
def wordCountSpec (s : String) : ℕ := countTokensGo false s.toList

/-- `src/main.py` line 123:
`round(len(transcript_text.split()) / audio_features['duration_seconds'] * 60, 1)`.
Python raises `ZeroDivisionError` when the duration is zero. -/
def speechRate (wc : ℕ) (d : ℚ) : Except String ℚ :=
  if d = 0 then .error "ZeroDivisionError" else .ok (round1 ((wc : ℚ) / d * 60))

/-- One stored analysis record (`analysis` dict, `src/main.py` lines 117-125). -/
structure AnalysisRecord where
  timestamp : String
  transcript : String
  word_count : ℕ
  emotions : List EmotionScore
  stress_score : ℚ
  speech_rate : ℚ
  warnings : List String
  deriving DecidableEq, Repr

/-- The pure core of the `analyze_speech` endpoint (`src/main.py` lines
89-125): given the collaborator outputs (transcript, emotion scores,
acoustic features) build the `analysis` record.  The division
`word_count / duration_seconds` raises `ZeroDivisionError` when the
duration is zero. -/
def mkAnalysis (ts : String) (transcript : String)
    (emotions : List EmotionScore) (feat : AcousticFeatures) :
    Except String AnalysisRecord :=
  let wc := wordCount transcript
  let ss := stressScore emotions feat
  let warnings := warningsOf feat.num_pauses feat.pitch_variation wc ss
  match speechRate wc feat.duration_seconds with
  | .error e => .error e
  | .ok sr => .ok {
      timestamp := ts
      transcript := transcript
      word_count := wc
      emotions := emotions.take 3
      stress_score := round1 ss
      speech_rate := sr
      warnings := warnings }

/-- The on-disk `user_data.json` contents: a mapping from user id to that
user's ordered list of analysis records (Python dicts keep insertion
order, so an association list). -/
abbrev Store : Type := List (String × List AnalysisRecord)

/-- Python's `data[user_id]` / `user_id in data` lookup. -/
def lookupStore : Store → String → Option (List AnalysisRecord)
  | [], _ => none
  | (k, v) :: rest, uid => if k = uid then some v else lookupStore rest uid

/-- `src/main.py` lines 135-138: `if user_id not in data: data[user_id] = []`
followed by `data[user_id].append(analysis)`. -/
def appendRecord : Store → String → AnalysisRecord → Store
  | [], uid, r => [(uid, [r])]
  | (k, v) :: rest, uid, r =>
      if k = uid then (k, v ++ [r]) :: rest else (k, v) :: appendRecord rest uid r

/-- Append a whole sequence of records for one user, in order. -/
def appendAll (data : Store) (uid : String) (rs : List AnalysisRecord) : Store :=
  rs.foldl (fun d r => appendRecord d uid r) data

/-- Python's `all(l[i] < l[i+1] for i in range(len(l)-1))`. -/
def pairwiseLt : List ℚ → Bool
  | a :: b :: rest => decide (a < b) && pairwiseLt (b :: rest)
  | _ => true

/-- Python's `all(l[i] > l[i+1] for i in range(len(l)-1))`. -/
def pairwiseGt : List ℚ → Bool
  | a :: b :: rest => decide (a > b) && pairwiseGt (b :: rest)
  | _ => true

/-- `src/main.py` lines 175-184: the trend verdict over the full list of a
user's stress scores. -/
def trendOf (scores : List ℚ) : String :=
  if scores.length ≥ 3 then
    if pairwiseLt (lastN 3 scores) then "increasing"
    else if pairwiseGt (lastN 3 scores) then "decreasing"
    else "stable"
  else "insufficient_data"

/-- `src/main.py` line 171 (applied to `recent = user_recordings[-5:]`),
rounded at line 188.  Division by `len(recent)` is left unrounded here;
the caller guards emptiness. -/
def averageStress (recs : List AnalysisRecord) : ℚ :=
  round1 (((lastN 5 recs).map (·.stress_score)).sum / ((lastN 5 recs).length : ℚ))

/-- `src/main.py` line 172 / 189: average speech rate over the last 5. -/
def averageSpeechRate (recs : List AnalysisRecord) : ℚ :=
  round1 (((lastN 5 recs).map (·.speech_rate)).sum / ((lastN 5 recs).length : ℚ))

/-- Successful response body of `get_trends` (`src/main.py` lines 186-193). -/
structure TrendOutput where
  total_recordings : ℕ
  average_stress : ℚ
  average_speech_rate : ℚ
  trend : String
  recent_recordings : List AnalysisRecord
  all_recordings : List AnalysisRecord
  deriving DecidableEq, Repr

/-- A `get_trends` response: either a `no_data` status or the trend output. -/
inductive TrendResponse where
  | noData (message : String)
  | trends (out : TrendOutput)
  deriving DecidableEq, Repr

/-- The `get_trends` endpoint (`src/main.py` lines 153-193).  `store` is
`none` when `user_data.json` does not exist.  `sum(...) / len(recent)`
raises `ZeroDivisionError` when `recent` is empty, i.e. when a user is
present in the store with zero records. -/
def getTrends (store : Option Store) (uid : String) : Except String TrendResponse :=
  match store with
  | none => .ok (.noData "No recordings yet")
  | some data =>
    match lookupStore data uid with
    | none => .ok (.noData "No recordings for this user")
    | some recs =>
      let recent := lastN 5 recs
      if recent.length = 0 then .error "ZeroDivisionError"
      else .ok (.trends {
        total_recordings := recs.length
        average_stress := averageStress recs
        average_speech_rate := averageSpeechRate recs
        trend := trendOf (recs.map (·.stress_score))
        recent_recordings := recent
        all_recordings := recs })

/-- Spec-side formula (§4.2 step 1): the sum of `score × 100` over exactly
the emotions whose label lies in `{angry, sad, fear}`. -/
def emotionStressSpec (emotions : List EmotionScore) : ℚ :=
  ((emotions.filter
      (fun e => e.label = "angry" ∨ e.label = "sad" ∨ e.label = "fear")).map
    (fun e => e.score * 100)).sum

/-- Spec-side (§4.5): a list is exactly three strictly increasing scores. -/
def StrictInc3 (l : List ℚ) : Prop := ∃ a b c, l = [a, b, c] ∧ a < b ∧ b < c

/-- Spec-side (§4.5): a list is exactly three strictly decreasing scores. -/
def StrictDec3 (l : List ℚ) : Prop := ∃ a b c, l = [a, b, c] ∧ b < a ∧ c < b

/-! ### Helper lemmas -/

theorem floor_le_roundHalfEven (q : ℚ) : ⌊q⌋ ≤ roundHalfEven q := by
  unfold roundHalfEven
  split_ifs <;> omega

theorem roundHalfEven_le_ceil (q : ℚ) : roundHalfEven q ≤ ⌈q⌉ := by
  unfold roundHalfEven
  have hfc : ⌊q⌋ ≤ ⌈q⌉ := Int.floor_le_ceil q
  split_ifs with h1 h2 h3
  · exact hfc
  · have hq : (⌊q⌋ : ℚ) < q := by linarith
    have : ⌊q⌋ < ⌈q⌉ := Int.lt_ceil.mpr hq
    omega
  · exact hfc
  · have hq : (⌊q⌋ : ℚ) < q := by linarith
    have : ⌊q⌋ < ⌈q⌉ := Int.lt_ceil.mpr hq
    omega

theorem round1_nonneg {q : ℚ} (h : 0 ≤ q) : 0 ≤ round1 q := by
  unfold round1
  have h10 : (0 : ℚ) ≤ q * 10 := by linarith
  have hf : (0 : ℤ) ≤ ⌊q * 10⌋ := Int.floor_nonneg.mpr h10
  have := floor_le_roundHalfEven (q * 10)
  have hz : (0 : ℤ) ≤ roundHalfEven (q * 10) := le_trans hf this
  have : (0 : ℚ) ≤ (roundHalfEven (q * 10) : ℚ) := by exact_mod_cast hz
  linarith

theorem round1_le_100 {q : ℚ} (h : q ≤ 100) : round1 q ≤ 100 := by
  unfold round1
  have h10 : q * 10 ≤ 1000 := by linarith
  have hc : ⌈q * 10⌉ ≤ 1000 := Int.ceil_le.mpr (by exact_mod_cast h10)
  have := roundHalfEven_le_ceil (q * 10)
  have hz : roundHalfEven (q * 10) ≤ 1000 := le_trans this hc
  have : (roundHalfEven (q * 10) : ℚ) ≤ 1000 := by exact_mod_cast hz
  linarith

theorem emotionStress_nonneg {emotions : List EmotionScore}
    (h : ∀ e ∈ emotions, 0 ≤ e.score) : 0 ≤ emotionStress emotions := by
  induction emotions with
  | nil => simp [emotionStress]
  | cons e rest ih =>
    have he : 0 ≤ e.score := h e (List.mem_cons_self e rest)
    have hrest : 0 ≤ emotionStress rest :=
      ih (fun x hx => h x (List.mem_cons_of_mem e hx))
    unfold emotionStress
    split_ifs with hcase
    · nlinarith
    · linarith

theorem emotionStress_eq_spec (emotions : List EmotionScore) :
    emotionStress emotions = emotionStressSpec emotions := by
  induction emotions with
  | nil => simp [emotionStress, emotionStressSpec]
  | cons e rest ih =>
    unfold emotionStress emotionStressSpec
    by_cases hcase : e.label = "angry" ∨ e.label = "sad" ∨ e.label = "fear"
    · simp only [hcase, if_pos, List.filter_cons_of_pos, decide_eq_true_eq,
        List.map_cons, List.sum_cons]
      rw [ih]; rfl
    · simp only [hcase, if_neg, List.filter_cons_of_neg, decide_eq_true_eq,
        not_false_iff]
      rw [ih]
      simp [emotionStressSpec, hcase]

theorem pauseFactor_nonneg {np : ℤ} (h : 0 ≤ np) : 0 ≤ pauseFactor np := by
  unfold pauseFactor
  exact le_min (by omega) (by omega)

theorem monotoneFactor_nonneg (pv : ℚ) : 0 ≤ monotoneFactor pv := by
  unfold monotoneFactor
  split_ifs <;> norm_num

/-! ### Claim theorems -/

/-- C1: for any emotion list (with classifier scores that are nonnegative,
as the data model guarantees) and any acoustic features with
`num_pauses ≥ 0`, the stress score — both the clamped intermediate and the
stored 1-decimal rounding — lies in `[0, 100]`, no matter how large the
`emotion_stress` intermediate sum grows. -/
theorem stress_score_clamped (emotions : List EmotionScore) (feat : AcousticFeatures)
    (hscore : ∀ e ∈ emotions, 0 ≤ e.score) (hnp : 0 ≤ feat.num_pauses) :
    0 ≤ stressScore emotions feat ∧ stressScore emotions feat ≤ 100 ∧
    0 ≤ round1 (stressScore emotions feat) ∧
    round1 (stressScore emotions feat) ≤ 100 := by
  have hes := emotionStress_nonneg hscore
  have hpf := pauseFactor_nonneg hnp
  have hpfq : (0 : ℚ) ≤ (pauseFactor feat.num_pauses : ℚ) := by exact_mod_cast hpf
  have hmf := monotoneFactor_nonneg feat.pitch_variation
  have hlo : 0 ≤ stressScore emotions feat := by
    unfold stressScore
    exact le_min (by linarith) (by norm_num)
  have hhi : stressScore emotions feat ≤ 100 := min_le_right _ _
  exact ⟨hlo, hhi, round1_nonneg hlo, round1_le_100 hhi⟩

theorem stress_score_clamped_witness :
    0 ≤ stressScore [⟨"sad", 1⟩] ⟨0, 100, 0, 1⟩ ∧
    stressScore [⟨"sad", 1⟩] ⟨0, 100, 0, 1⟩ ≤ 100 ∧
    0 ≤ round1 (stressScore [⟨"sad", 1⟩] ⟨0, 100, 0, 1⟩) ∧
    round1 (stressScore [⟨"sad", 1⟩] ⟨0, 100, 0, 1⟩) ≤ 100 :=
  stress_score_clamped _ _ (by decide) (by decide)

/-- C2: for any inputs with a nonzero duration, the analysis succeeds and the
stored stress score is `min(emotion_stress + pause_factor + monotone_factor,
100)` rounded to one decimal, where `emotion_stress` sums `score × 100` over
exactly the emotions labelled `angry`, `sad` or `fear`, `pause_factor =
min(num_pauses × 5, 40)`, and `monotone_factor` is `30` iff
`pitch_variation < 50`, else `0`. -/
theorem stress_score_formula (ts transcript : String)
    (emotions : List EmotionScore) (feat : AcousticFeatures)
    (hd : feat.duration_seconds ≠ 0) :
    ∃ rec, mkAnalysis ts transcript emotions feat = .ok rec ∧
      rec.stress_score =
        round1 (min (emotionStressSpec emotions
          + ((min (feat.num_pauses * 5) 40 : ℤ) : ℚ)
          + (if feat.pitch_variation < 50 then 30 else 0)) 100) := by
  have hsp : speechRate (wordCount transcript) feat.duration_seconds
      = .ok (round1 ((wordCount transcript : ℚ) / feat.duration_seconds * 60)) := by
    unfold speechRate
    rw [if_neg hd]
  simp only [mkAnalysis]
  rw [hsp]
  refine ⟨_, rfl, ?_⟩
  show round1 (stressScore emotions feat) = _
  unfold stressScore pauseFactor monotoneFactor
  rw [emotionStress_eq_spec]

theorem stress_score_formula_witness :
    ∃ rec, mkAnalysis "t" "hello world" [⟨"sad", 1/2⟩] ⟨2, 10, 0, 1⟩ = .ok rec ∧
      rec.stress_score =
        round1 (min (emotionStressSpec [⟨"sad", 1/2⟩]
          + ((min ((2 : ℤ) * 5) 40 : ℤ) : ℚ)
          + (if (10 : ℚ) < 50 then 30 else 0)) 100) :=
  stress_score_formula "t" "hello world" [⟨"sad", 1/2⟩] ⟨2, 10, 0, 1⟩ (by decide)

/-- C3 counterexample: when zero non-silent intervals are detected the code
produces `num_pauses = -1`: there is no flooring at 0, contradicting the
claim that `num_pauses` is always a non-negative integer. -/
theorem numPauses_floor_counterexample :
    numPauses 0 = -1 ∧ numPauses 0 < 0 ∧ numPauses 0 ≠ numPausesSpec 0 := by
  decide

/-- C3 (amended): `num_pauses` is exactly the detected interval count minus
one, with no flooring: it is negative (namely `-1`) precisely when no
interval is detected, and agrees with the spec's floored value whenever at
least one interval is found. -/
theorem numPauses_amended (n : ℕ) :
    numPauses n = (n : ℤ) - 1 ∧
    (numPauses n < 0 ↔ n = 0) ∧
    (1 ≤ n → 0 ≤ numPauses n) ∧
    (1 ≤ n → numPauses n = numPausesSpec n) := by
  unfold numPauses numPausesSpec
  refine ⟨rfl, by omega, by omega, ?_⟩
  intro h
  rw [max_eq_left (by omega)]

theorem numPauses_amended_witness :
    (1 ≤ 3 ∧ 0 ≤ numPauses 3) ∧ (1 ≤ 3 ∧ numPauses 3 = numPausesSpec 3) :=
  ⟨⟨by decide, (numPauses_amended 3).2.2.1 (by decide)⟩,
   ⟨by decide, (numPauses_amended 3).2.2.2 (by decide)⟩⟩

/-- C5: the warnings list is the concatenation of the four independently
evaluated conditions in the fixed source order (frequent pauses, monotone,
reduced verbal output, high stress), and the input `num_pauses = 16,
pitch_variation = 100, word_count = 50, stress_score = 40` yields exactly
the frequent-pauses warning. -/
theorem warnings_fixed_order :
    (∀ (np : ℤ) (pv : ℚ) (wc : ℕ) (ss : ℚ),
      warningsOf np pv wc ss =
        (if 15 < np then ["⚠️ Frequent pauses detected"] else []) ++
        (if pv < 50 then ["⚠️ Monotone speech pattern"] else []) ++
        (if wc < 30 then ["⚠️ Reduced verbal output"] else []) ++
        (if 70 < ss then ["⚠️ High stress levels"] else [])) ∧
    warningsOf 16 100 50 40 = ["⚠️ Frequent pauses detected"] := by
  constructor
  · intro np pv wc ss
    unfold warningsOf
    split_ifs <;> simp
  · decide

theorem lastN_length {α : Type} (n : ℕ) (l : List α) :
    (lastN n l).length = min n l.length := by
  unfold lastN
  rw [List.length_drop]
  omega

theorem lastN_append {α : Type} (n : ℕ) (l₁ l₂ : List α) (h : l₂.length = n) :
    lastN n (l₁ ++ l₂) = l₂ := by
  unfold lastN
  rw [List.length_append, h, show l₁.length + n - n = l₁.length by omega]
  exact List.drop_left l₁ l₂

theorem pairwiseLt_three {a b c : ℚ} :
    pairwiseLt [a, b, c] = true ↔ a < b ∧ b < c := by
  simp [pairwiseLt, and_assoc]

theorem pairwiseGt_three {a b c : ℚ} :
    pairwiseGt [a, b, c] = true ↔ b < a ∧ c < b := by
  simp [pairwiseGt, and_assoc]

theorem strictInc3_iff (a b c : ℚ) : StrictInc3 [a, b, c] ↔ a < b ∧ b < c := by
  unfold StrictInc3
  constructor
  · rintro ⟨a', b', c', heq, h1, h2⟩
    simp only [List.cons.injEq, and_true] at heq
    obtain ⟨rfl, rfl, rfl⟩ := heq
    exact ⟨h1, h2⟩
  · rintro ⟨h1, h2⟩
    exact ⟨a, b, c, rfl, h1, h2⟩

theorem strictDec3_iff (a b c : ℚ) : StrictDec3 [a, b, c] ↔ b < a ∧ c < b := by
  unfold StrictDec3
  constructor
  · rintro ⟨a', b', c', heq, h1, h2⟩
    simp only [List.cons.injEq, and_true] at heq
    obtain ⟨rfl, rfl, rfl⟩ := heq
    exact ⟨h1, h2⟩
  · rintro ⟨h1, h2⟩
    exact ⟨a, b, c, rfl, h1, h2⟩

/-- C6: the trend is `increasing` iff the last three stress scores are
strictly increasing, `decreasing` iff strictly decreasing, `stable` in every
other case (plateaus included), and `insufficient_data` for histories
shorter than three; the spec's three example histories evaluate as stated. -/
theorem trend_classification :
    (∀ scores : List ℚ, scores.length < 3 →
      trendOf scores = "insufficient_data") ∧
    (∀ scores : List ℚ, 3 ≤ scores.length →
      ((trendOf scores = "increasing" ↔ StrictInc3 (lastN 3 scores)) ∧
       (trendOf scores = "decreasing" ↔ StrictDec3 (lastN 3 scores)) ∧
       (trendOf scores = "stable" ↔
         ¬ StrictInc3 (lastN 3 scores) ∧ ¬ StrictDec3 (lastN 3 scores)))) ∧
    trendOf [10, 20, 30] = "increasing" ∧
    trendOf [30, 20, 10] = "decreasing" ∧
    trendOf [10, 30, 20] = "stable" := by
  refine ⟨?_, ?_, by decide, by decide, by decide⟩
  · intro scores h
    unfold trendOf
    rw [if_neg (by omega)]
  · intro scores h
    have hlen : (lastN 3 scores).length = 3 := by
      rw [lastN_length]; omega
    obtain ⟨a, b, c, habc⟩ := List.length_eq_three.mp hlen
    unfold trendOf
    rw [if_pos (by omega), habc, strictInc3_iff, strictDec3_iff]
    by_cases hi : a < b ∧ b < c
    · rw [if_pos (pairwiseLt_three.mpr hi)]
      refine ⟨by simp [hi], ?_, ?_⟩
      · constructor
        · intro hs; exact absurd hs (by decide)
        · rintro ⟨hba, -⟩; exact absurd (lt_trans hba hi.1) (lt_irrefl _)
      · constructor
        · intro hs; exact absurd hs (by decide)
        · rintro ⟨hni, -⟩; exact absurd hi hni
    · rw [if_neg (by simpa using (fun hh => hi (pairwiseLt_three.mp hh)))]
      by_cases hd : b < a ∧ c < b
      · rw [if_pos (pairwiseGt_three.mpr hd)]
        refine ⟨?_, by simp [hd], ?_⟩
        · constructor
          · intro hs; exact absurd hs (by decide)
          · intro hinc; exact absurd hinc hi
        · constructor
          · intro hs; exact absurd hs (by decide)
          · rintro ⟨-, hnd⟩; exact absurd hd hnd
      · rw [if_neg (by simpa using (fun hh => hd (pairwiseGt_three.mp hh)))]
        refine ⟨?_, ?_, by simp [hi, hd]⟩
        · constructor
          · intro hs; exact absurd hs (by decide)
          · intro hinc; exact absurd hinc hi
        · constructor
          · intro hs; exact absurd hs (by decide)
          · intro hdec; exact absurd hdec hd

theorem trend_classification_witness :
    trendOf [10, 20] = "insufficient_data" ∧
    (trendOf [10, 20, 30] = "increasing" ↔ StrictInc3 (lastN 3 [10, 20, 30])) :=
  ⟨trend_classification.1 [10, 20] (by decide),
   (trend_classification.2.1 [10, 20, 30] (by decide)).1⟩

theorem lastN_of_length_le {α : Type} (n : ℕ) (l : List α) (h : l.length ≤ n) :
    lastN n l = l := by
  unfold lastN
  rw [show l.length - n = 0 by omega]
  exact List.drop_zero l

/-- C7: the averages reported by get-trends are the 1-decimal-rounded
arithmetic means of `stress_score` and `speech_rate` over exactly the last
`min 5 length` records: the window has that length, the divisor is that
length, records before the window have no effect, and the get-trends output
exposes exactly these averages. -/
theorem averages_last_five :
    (∀ recs : List AnalysisRecord, (lastN 5 recs).length = min 5 recs.length) ∧
    (∀ recs : List AnalysisRecord, recs ≠ [] →
      averageStress recs =
        round1 (((lastN 5 recs).map (·.stress_score)).sum
          / ((min 5 recs.length : ℕ) : ℚ)) ∧
      averageSpeechRate recs =
        round1 (((lastN 5 recs).map (·.speech_rate)).sum
          / ((min 5 recs.length : ℕ) : ℚ))) ∧
    (∀ older recent5 : List AnalysisRecord, recent5.length = 5 →
      averageStress (older ++ recent5) = averageStress recent5 ∧
      averageSpeechRate (older ++ recent5) = averageSpeechRate recent5) ∧
    (∀ (data : Store) (uid : String) (recs : List AnalysisRecord),
      lookupStore data uid = some recs → recs ≠ [] →
      ∃ out, getTrends (some data) uid = .ok (.trends out) ∧
        out.average_stress = averageStress recs ∧
        out.average_speech_rate = averageSpeechRate recs) := by
  refine ⟨fun recs => lastN_length 5 recs, ?_, ?_, ?_⟩
  · intro recs _
    constructor <;> simp only [averageStress, averageSpeechRate, lastN_length]
  · intro older recent5 h
    have h5 : lastN 5 (older ++ recent5) = recent5 := lastN_append 5 older recent5 h
    have hself : lastN 5 recent5 = recent5 :=
      lastN_of_length_le 5 recent5 (by omega)
    constructor <;> simp only [averageStress, averageSpeechRate, h5, hself]
  · intro data uid recs hlk hne
    have hlen : (lastN 5 recs).length ≠ 0 := by
      rw [lastN_length]
      have := List.length_pos.mpr hne
      omega
    simp only [getTrends]
    rw [hlk]
    simp only [if_neg hlen]
    exact ⟨_, rfl, rfl, rfl⟩

theorem averages_last_five_witness :
    averageStress
        ([⟨"1", "", 0, [], 1, 1, []⟩, ⟨"2", "", 0, [], 2, 2, []⟩] ++
          [⟨"3", "", 0, [], 3, 3, []⟩, ⟨"4", "", 0, [], 4, 4, []⟩,
           ⟨"5", "", 0, [], 5, 5, []⟩, ⟨"6", "", 0, [], 6, 6, []⟩,
           ⟨"7", "", 0, [], 7, 7, []⟩]) =
      averageStress
        [⟨"3", "", 0, [], 3, 3, []⟩, ⟨"4", "", 0, [], 4, 4, []⟩,
         ⟨"5", "", 0, [], 5, 5, []⟩, ⟨"6", "", 0, [], 6, 6, []⟩,
         ⟨"7", "", 0, [], 7, 7, []⟩] ∧
    averageSpeechRate
        ([⟨"1", "", 0, [], 1, 1, []⟩, ⟨"2", "", 0, [], 2, 2, []⟩] ++
          [⟨"3", "", 0, [], 3, 3, []⟩, ⟨"4", "", 0, [], 4, 4, []⟩,
           ⟨"5", "", 0, [], 5, 5, []⟩, ⟨"6", "", 0, [], 6, 6, []⟩,
           ⟨"7", "", 0, [], 7, 7, []⟩]) =
      averageSpeechRate
        [⟨"3", "", 0, [], 3, 3, []⟩, ⟨"4", "", 0, [], 4, 4, []⟩,
         ⟨"5", "", 0, [], 5, 5, []⟩, ⟨"6", "", 0, [], 6, 6, []⟩,
         ⟨"7", "", 0, [], 7, 7, []⟩] :=
  averages_last_five.2.2.1
    [⟨"1", "", 0, [], 1, 1, []⟩, ⟨"2", "", 0, [], 2, 2, []⟩]
    [⟨"3", "", 0, [], 3, 3, []⟩, ⟨"4", "", 0, [], 4, 4, []⟩,
     ⟨"5", "", 0, [], 5, 5, []⟩, ⟨"6", "", 0, [], 6, 6, []⟩,
     ⟨"7", "", 0, [], 7, 7, []⟩] (by decide)

theorem pySplitGo_length (cs : List Char) : ∀ cur : List Char,
    (pySplitGo cs cur).length =
      countTokensGo (decide (cur ≠ [])) cs + (if cur = [] then 0 else 1) := by
  induction cs with
  | nil =>
    intro cur
    by_cases h : cur = [] <;> simp [pySplitGo, countTokensGo, h]
  | cons c rest ih =>
    intro cur
    by_cases hw : c.isWhitespace <;> by_cases h : cur = [] <;>
      simp [pySplitGo, countTokensGo, hw, h, ih] <;> omega

theorem wordCount_eq_spec (s : String) : wordCount s = wordCountSpec s := by
  unfold wordCount wordCountSpec
  rw [pySplitGo_length s.toList []]
  simp

/-- C8: the word count is the number of whitespace-delimited tokens of the
transcript (0 for the empty transcript), the speech rate for a positive
duration is `word_count / duration × 60` rounded to one decimal, and a zero
duration raises the division error instead of producing a result. -/
theorem word_count_speech_rate :
    (∀ s : String, wordCount s = wordCountSpec s) ∧
    wordCount "" = 0 ∧
    (∀ (wc : ℕ) (d : ℚ), 0 < d →
      speechRate wc d = .ok (round1 ((wc : ℚ) / d * 60))) ∧
    (∀ wc : ℕ, speechRate wc 0 = .error "ZeroDivisionError") := by
  refine ⟨wordCount_eq_spec, by decide, ?_, ?_⟩
  · intro wc d hd
    unfold speechRate
    rw [if_neg (ne_of_gt hd)]
  · intro wc
    unfold speechRate
    rw [if_pos rfl]

theorem word_count_speech_rate_witness :
    (0 : ℚ) < 2 ∧ speechRate 30 2 = .ok (round1 ((30 : ℚ) / 2 * 60)) :=
  ⟨by norm_num, word_count_speech_rate.2.2.1 30 2 (by norm_num)⟩

theorem lookupStore_appendRecord_self (data : Store) (uid : String)
    (r : AnalysisRecord) :
    lookupStore (appendRecord data uid r) uid =
      some ((lookupStore data uid).getD [] ++ [r]) := by
  induction data with
  | nil => simp [appendRecord, lookupStore]
  | cons p rest ih =>
    obtain ⟨k, v⟩ := p
    by_cases hk : k = uid
    · subst hk
      simp [appendRecord, lookupStore]
    · simp only [appendRecord, if_neg hk, lookupStore]
      exact ih

theorem lookupStore_appendRecord_other (data : Store) (uid k : String)
    (r : AnalysisRecord) (h : k ≠ uid) :
    lookupStore (appendRecord data uid r) k = lookupStore data k := by
  induction data with
  | nil =>
    simp [appendRecord, lookupStore, Ne.symm h]
  | cons p rest ih =>
    obtain ⟨k', v⟩ := p
    by_cases hk : k' = uid
    · subst hk
      simp [appendRecord, lookupStore, Ne.symm h]
    · simp only [appendRecord, if_neg hk, lookupStore]
      split_ifs with h2
      · rfl
      · exact ih

theorem lookupStore_appendAll_self (rs : List AnalysisRecord) :
    ∀ (data : Store) (uid : String), rs ≠ [] →
      lookupStore (appendAll data uid rs) uid =
        some ((lookupStore data uid).getD [] ++ rs) := by
  induction rs with
  | nil => intro data uid h; exact absurd rfl h
  | cons r rs ih =>
    intro data uid _
    have h1 : appendAll data uid (r :: rs) =
        appendAll (appendRecord data uid r) uid rs := rfl
    by_cases hrs : rs = []
    · subst hrs
      rw [h1]
      show lookupStore (appendRecord data uid r) uid = _
      rw [lookupStore_appendRecord_self]
    · rw [h1, ih (appendRecord data uid r) uid hrs,
        lookupStore_appendRecord_self]
      simp

theorem lookupStore_appendAll_other (rs : List AnalysisRecord) :
    ∀ (data : Store) (uid k : String), k ≠ uid →
      lookupStore (appendAll data uid rs) k = lookupStore data k := by
  induction rs with
  | nil => intro data uid k _; rfl
  | cons r rs ih =>
    intro data uid k h
    have h1 : appendAll data uid (r :: rs) =
        appendAll (appendRecord data uid r) uid rs := rfl
    rw [h1, ih _ uid k h, lookupStore_appendRecord_other data uid k r h]

/-- C9: appending a sequence of records for a user and reading that user's
history back yields exactly the prior history extended by those records, in
append order (so from an empty store, exactly that sequence); lookups for
any other user are unaffected. -/
theorem history_append_roundtrip :
    (∀ (data : Store) (uid : String) (rs : List AnalysisRecord), rs ≠ [] →
      lookupStore (appendAll data uid rs) uid =
        some ((lookupStore data uid).getD [] ++ rs)) ∧
    (∀ (uid : String) (rs : List AnalysisRecord), rs ≠ [] →
      lookupStore (appendAll [] uid rs) uid = some rs) ∧
    (∀ (data : Store) (uid k : String) (rs : List AnalysisRecord), k ≠ uid →
      lookupStore (appendAll data uid rs) k = lookupStore data k) := by
  refine ⟨fun data uid rs h => lookupStore_appendAll_self rs data uid h, ?_,
    fun data uid k rs h => lookupStore_appendAll_other rs data uid k h⟩
  intro uid rs h
  rw [lookupStore_appendAll_self rs [] uid h]
  rfl

theorem history_append_roundtrip_witness :
    lookupStore
        (appendAll [] "u"
          [⟨"t1", "", 0, [], 0, 0, []⟩, ⟨"t2", "", 0, [], 1, 0, []⟩]) "u" =
      some [⟨"t1", "", 0, [], 0, 0, []⟩, ⟨"t2", "", 0, [], 1, 0, []⟩] ∧
    lookupStore (appendAll [] "u" [⟨"t1", "", 0, [], 0, 0, []⟩]) "v" =
      lookupStore [] "v" :=
  ⟨history_append_roundtrip.2.1 "u" _ (by decide),
   history_append_roundtrip.2.2 [] "u" "v" [⟨"t1", "", 0, [], 0, 0, []⟩]
     (by decide)⟩

theorem appendRecord_values_ne_nil (data : Store) (uid : String)
    (r : AnalysisRecord) (hinv : ∀ p ∈ data, p.2 ≠ []) :
    ∀ p ∈ appendRecord data uid r, p.2 ≠ [] := by
  induction data with
  | nil =>
    intro p hp
    simp only [appendRecord, List.mem_singleton] at hp
    subst hp
    simp
  | cons q rest ih =>
    intro p hp
    obtain ⟨k, v⟩ := q
    by_cases hk : k = uid
    · subst hk
      have he : appendRecord ((k, v) :: rest) k r = (k, v ++ [r]) :: rest := by
        simp [appendRecord]
      rw [he] at hp
      rcases List.mem_cons.mp hp with hp | hp
      · subst hp; simp
      · exact hinv p (List.mem_cons_of_mem _ hp)
    · have he : appendRecord ((k, v) :: rest) uid r
          = (k, v) :: appendRecord rest uid r := by
        simp [appendRecord, hk]
      rw [he] at hp
      rcases List.mem_cons.mp hp with hp | hp
      · subst hp
        exact hinv (k, v) (List.mem_cons_self _ _)
      · exact ih (fun q hq => hinv q (List.mem_cons_of_mem _ hq)) p hp

/-- C4 counterexample: a store in which the user is present with an empty
history does not produce a "no data" status: the averaging is reached on an
empty sequence and raises `ZeroDivisionError`, refuting the claim that a
zero-record user always gets "no data". -/
theorem getTrends_empty_history_counterexample :
    getTrends (some [("u", [])]) "u" = .error "ZeroDivisionError" ∧
    ∀ m, getTrends (some [("u", [])]) "u" ≠ .ok (.noData m) := by
  constructor
  · rfl
  · intro m h
    rw [show getTrends (some [("u", [])]) "u"
        = Except.error "ZeroDivisionError" from rfl] at h
    exact Except.noConfusion h

/-- C4 (amended): get-trends returns "no data" exactly when the store file
is absent or the user is not a key; a user present with zero records
instead hits the averaging division and raises `ZeroDivisionError` — a
state the append operation can never create, since appending preserves
non-emptiness of every stored history. -/
theorem getTrends_noData_amended :
    (∀ uid : String, getTrends none uid = .ok (.noData "No recordings yet")) ∧
    (∀ (data : Store) (uid : String), lookupStore data uid = none →
      getTrends (some data) uid = .ok (.noData "No recordings for this user")) ∧
    (∀ (data : Store) (uid : String) (recs : List AnalysisRecord),
      lookupStore data uid = some recs → recs = [] →
      getTrends (some data) uid = .error "ZeroDivisionError") ∧
    (∀ (data : Store) (uid : String) (recs : List AnalysisRecord),
      lookupStore data uid = some recs → recs ≠ [] →
      ∃ out, getTrends (some data) uid = .ok (.trends out)) ∧
    (∀ (data : Store) (uid : String) (r : AnalysisRecord),
      (∀ p ∈ data, p.2 ≠ []) → ∀ p ∈ appendRecord data uid r, p.2 ≠ []) := by
  refine ⟨fun uid => rfl, ?_, ?_, ?_,
    fun data uid r hinv => appendRecord_values_ne_nil data uid r hinv⟩
  · intro data uid h
    simp only [getTrends]
    rw [h]
  · intro data uid recs h hrec
    subst hrec
    simp only [getTrends]
    rw [h]
    rfl
  · intro data uid recs h hne
    have hlen : (lastN 5 recs).length ≠ 0 := by
      rw [lastN_length]
      have := List.length_pos.mpr hne
      omega
    simp only [getTrends]
    rw [h]
    simp only [if_neg hlen]
    exact ⟨_, rfl⟩

theorem getTrends_noData_amended_witness :
    getTrends none "u" = .ok (.noData "No recordings yet") ∧
    getTrends (some []) "u" = .ok (.noData "No recordings for this user") ∧
    getTrends (some [("u", [])]) "u" = .error "ZeroDivisionError" ∧
    (∃ out, getTrends (some [("u", [⟨"t", "", 0, [], 0, 0, []⟩])]) "u" =
      .ok (.trends out)) :=
  ⟨getTrends_noData_amended.1 "u",
   getTrends_noData_amended.2.1 [] "u" rfl,
   getTrends_noData_amended.2.2.1 [("u", [])] "u" [] rfl rfl,
   getTrends_noData_amended.2.2.2.1 [("u", [⟨"t", "", 0, [], 0, 0, []⟩])] "u"
     [⟨"t", "", 0, [], 0, 0, []⟩] rfl (by decide)⟩

theorem highStress_mem_warningsOf (np : ℤ) (pv : ℚ) (wc : ℕ) (ss : ℚ) :
    "⚠️ High stress levels" ∈ warningsOf np pv wc ss ↔ 70 < ss := by
  unfold warningsOf
  split_ifs <;> simp_all

theorem mkAnalysis_ok_fields (ts transcript : String)
    (emotions : List EmotionScore) (feat : AcousticFeatures)
    (rec : AnalysisRecord) (h : mkAnalysis ts transcript emotions feat = .ok rec) :
    rec.warnings = warningsOf feat.num_pauses feat.pitch_variation
      (wordCount transcript) (stressScore emotions feat) ∧
    rec.stress_score = round1 (stressScore emotions feat) := by
  by_cases hd : feat.duration_seconds = 0
  · exfalso
    simp [mkAnalysis, speechRate, hd] at h
  · have hsp : speechRate (wordCount transcript) feat.duration_seconds
        = .ok (round1 ((wordCount transcript : ℚ)
            / feat.duration_seconds * 60)) := by
      unfold speechRate
      rw [if_neg hd]
    simp only [mkAnalysis] at h
    rw [hsp] at h
    have hrec := Except.ok.inj h
    subst hrec
    exact ⟨rfl, rfl⟩

/-- C10: the high-stress warning is decided on the unrounded clamped score
(`> 70` before rounding) while the stored `stress_score` is that value
rounded to one decimal; at an input whose exact score is 70.02 the stored
record shows `stress_score = 70.0` together with the high-stress warning. -/
theorem high_stress_warning_unrounded :
    (∀ (np : ℤ) (pv : ℚ) (wc : ℕ) (ss : ℚ),
      "⚠️ High stress levels" ∈ warningsOf np pv wc ss ↔ 70 < ss) ∧
    (∀ (ts transcript : String) (emotions : List EmotionScore)
        (feat : AcousticFeatures) (rec : AnalysisRecord),
      mkAnalysis ts transcript emotions feat = .ok rec →
      (("⚠️ High stress levels" ∈ rec.warnings ↔
          70 < stressScore emotions feat) ∧
        rec.stress_score = round1 (stressScore emotions feat))) ∧
    (∃ rec, mkAnalysis "t"
        "w w w w w w w w w w w w w w w w w w w w w w w w w w w w w w"
        [⟨"sad", 3501/5000⟩] ⟨0, 100, 0, 1⟩ = .ok rec ∧
      70 < stressScore [⟨"sad", 3501/5000⟩] ⟨0, 100, 0, 1⟩ ∧
      rec.stress_score = 70 ∧
      rec.warnings = ["⚠️ High stress levels"]) := by
  refine ⟨highStress_mem_warningsOf, ?_, ?_⟩
  · intro ts transcript emotions feat rec h
    obtain ⟨hw, hs⟩ := mkAnalysis_ok_fields ts transcript emotions feat rec h
    rw [hw, hs]
    exact ⟨highStress_mem_warningsOf _ _ _ _, rfl⟩
  · have he : emotionStress [⟨"sad", (3501/5000 : ℚ)⟩] = 3501/50 := by
      norm_num [emotionStress]
    have hss : stressScore [⟨"sad", (3501/5000 : ℚ)⟩] ⟨0, 100, 0, 1⟩
        = 7002/100 := by
      unfold stressScore pauseFactor monotoneFactor
      rw [he]
      norm_num [min_def]
    have hr1 : round1 (7002/100 : ℚ) = 70 := by
      norm_num [round1, roundHalfEven]
    have hwc : wordCount
        "w w w w w w w w w w w w w w w w w w w w w w w w w w w w w w" = 30 := by
      decide
    refine ⟨_, rfl, ?_, ?_, ?_⟩
    · rw [hss]; norm_num
    · show round1 (stressScore [⟨"sad", (3501/5000 : ℚ)⟩] ⟨0, 100, 0, 1⟩) = 70
      rw [hss, hr1]
    · show warningsOf 0 100
          (wordCount "w w w w w w w w w w w w w w w w w w w w w w w w w w w w w w")
          (stressScore [⟨"sad", (3501/5000 : ℚ)⟩] ⟨0, 100, 0, 1⟩)
        = ["⚠️ High stress levels"]
      rw [hwc, hss]
      norm_num [warningsOf]

theorem high_stress_warning_unrounded_witness :
    ("⚠️ High stress levels" ∈ warningsOf 0 100 30 (71 : ℚ) ↔ (70 : ℚ) < 71) ∧
    (("⚠️ High stress levels" ∈
        (AnalysisRecord.mk "t" "" (wordCount "") (List.take 3 [])
          (round1 (stressScore [] ⟨0, 100, 0, 1⟩))
          (round1 ((wordCount "" : ℚ) / (1 : ℚ) * 60))
          (warningsOf 0 100 (wordCount "")
            (stressScore [] ⟨0, 100, 0, 1⟩))).warnings ↔
        70 < stressScore [] ⟨0, 100, 0, 1⟩) ∧
      (AnalysisRecord.mk "t" "" (wordCount "") (List.take 3 [])
          (round1 (stressScore [] ⟨0, 100, 0, 1⟩))
          (round1 ((wordCount "" : ℚ) / (1 : ℚ) * 60))
          (warningsOf 0 100 (wordCount "")
            (stressScore [] ⟨0, 100, 0, 1⟩))).stress_score =
        round1 (stressScore [] ⟨0, 100, 0, 1⟩)) :=
  ⟨high_stress_warning_unrounded.1 0 100 30 71,
   high_stress_warning_unrounded.2.1 "t" "" [] ⟨0, 100, 0, 1⟩ _ rfl⟩

end SpeechBackend
